import Mathlib

/-!
Verification of the ExtempQProvider repository (src/extemp_generator.py and
src/email_sender.py) against its natural-language specification.

Embedding conventions:

* A text file is represented by the list of its lines (`List String`): the
  physical file is the lines joined with a newline character.  All parsers in
  the repository normalise line endings and split on newlines before doing
  anything else, and a trailing newline only produces a final empty line that
  every parser discards, so this representation is faithful for the
  properties below.  Hypotheses stating that a field contains no newline or
  carriage-return characters express the "single-line" well-formedness
  conditions of the claims at the physical-file level.
* Python string primitives (strip, split, startswith, substring membership,
  lower, join, slicing) are embedded as executable functions over the
  character list of a `String`, mirroring CPython semantics on the character
  sets the repository uses.
* Effectful collaborators (the llama model call, SMTP transport) are modelled
  by explicit parameters: the model response is an input string and the
  transport result is an input boolean, matching the spec's black-box
  interfaces (section 6 of spec.md).
-/

namespace Extemp

/-- Python `marker.startswith` test: `beginsWithL pat l` is true when `pat` is
an initial segment of `l` (used for `str.startswith`). -/
def beginsWithL : List Char → List Char → Bool
  | [], _ => true
  | _ :: _, [] => false
  | p :: ps, c :: cs => p == c && beginsWithL ps cs

/-- Python `s.startswith(marker)`. -/
def pyStartsWith (s marker : String) : Bool := beginsWithL marker.data s.data

/-- Core of Python `str.strip()` on a character list: drop whitespace from
both ends. -/
def stripL (l : List Char) : List Char :=
  ((l.dropWhile Char.isWhitespace).reverse.dropWhile Char.isWhitespace).reverse

/-- Python `s.strip()`. -/
def pyStrip (s : String) : String := ⟨stripL s.data⟩

/-- Python `s[n:]` (slicing by code points). -/
def pyDrop (s : String) (n : Nat) : String := ⟨s.data.drop n⟩

/-- Core of Python `sep.join(xs)`. -/
def joinL (sep : List Char) : List (List Char) → List Char
  | [] => []
  | [x] => x
  | x :: y :: xs => x ++ sep ++ joinL sep (y :: xs)

/-- Python `sep.join(xs)`. -/
def pyJoin (sep : String) (xs : List String) : String :=
  ⟨joinL sep.data (xs.map String.data)⟩

/-- Core of Python substring membership: `needle` occurs inside the list. -/
def occursB (needle : List Char) : List Char → Bool
  | [] => beginsWithL needle []
  | c :: cs => beginsWithL needle (c :: cs) || occursB needle cs

/-- Python `needle in hay` on strings. -/
def pyContains (hay needle : String) : Bool := occursB needle.data hay.data

/-- Number of positions of the list at which `needle` occurs (occurrence
count of a substring, counting overlapping occurrences). -/
def occCount (needle : List Char) : List Char → Nat
  | [] => if beginsWithL needle [] then 1 else 0
  | c :: cs => (if beginsWithL needle (c :: cs) then 1 else 0) + occCount needle cs

/-- Python `s.lower()` (per-character lowering). -/
def pyLower (s : String) : String := ⟨s.data.map Char.toLower⟩

/-- Core of Python `s.split()`: cut on runs of whitespace, dropping empty
pieces.  First argument is the accumulator for the word being built
(in reverse). -/
def wordsAux : List Char → List Char → List (List Char)
  | acc, [] => if acc.isEmpty then [] else [acc.reverse]
  | acc, c :: cs =>
    if c.isWhitespace then
      if acc.isEmpty then wordsAux [] cs else acc.reverse :: wordsAux [] cs
    else wordsAux (c :: acc) cs

/-- Python `len(s.split())`: the number of whitespace-separated words. -/
def pyWordCount (s : String) : Nat := (wordsAux [] s.data).length

/-! ### Basic lemmas about the string primitives -/

theorem beginsWithL_append_self (p : List Char) : ∀ t, beginsWithL p (p ++ t) = true := by
  induction p with
  | nil => intro t; rfl
  | cons c cs ih =>
    intro t
    simp [beginsWithL, ih t]

theorem beginsWithL_iff_append (p l : List Char) :
    beginsWithL p l = true ↔ ∃ t, l = p ++ t := by
  induction p generalizing l with
  | nil => simp [beginsWithL]
  | cons c cs ih =>
    cases l with
    | nil => simp [beginsWithL]
    | cons d ds =>
      simp only [beginsWithL, Bool.and_eq_true, beq_iff_eq, ih]
      constructor
      · rintro ⟨rfl, t, rfl⟩; exact ⟨t, rfl⟩
      · rintro ⟨t, h⟩
        rw [List.cons_append] at h
        injection h with h1 h2
        exact ⟨h1.symm, t, h2⟩

theorem length_dropWhileLe (p : Char → Bool) (l : List Char) :
    (l.dropWhile p).length ≤ l.length := by
  induction l with
  | nil => simp
  | cons c cs ih =>
    rw [List.dropWhile_cons]
    split
    · exact Nat.le_trans ih (Nat.le_succ _)
    · simp

theorem dropWhile_eq_self_of_length (p : Char → Bool) (l : List Char)
    (h : (l.dropWhile p).length = l.length) : l.dropWhile p = l := by
  cases l with
  | nil => rfl
  | cons c cs =>
    rw [List.dropWhile_cons] at h ⊢
    by_cases hp : p c = true
    · rw [if_pos hp] at h
      exact absurd h (Nat.ne_of_lt (Nat.lt_succ_of_le (length_dropWhileLe p cs)))
    · rw [if_neg hp]

theorem head_false_of_dropWhile_eq_self (p : Char → Bool) (c : Char) (cs : List Char)
    (h : (c :: cs).dropWhile p = c :: cs) : p c = false := by
  rw [List.dropWhile_cons] at h
  by_cases hp : p c = true
  · rw [if_pos hp] at h
    have := length_dropWhileLe p cs
    rw [h] at this
    simp at this
  · simpa using hp

theorem dropWhile_idem (p : Char → Bool) (l : List Char) :
    (l.dropWhile p).dropWhile p = l.dropWhile p := by
  induction l with
  | nil => rfl
  | cons c cs ih =>
    rw [List.dropWhile_cons]
    by_cases hp : p c = true
    · rw [if_pos hp]; exact ih
    · rw [if_neg hp, List.dropWhile_cons, if_neg hp]

theorem dropWhile_decomp (p : Char → Bool) (l : List Char) :
    ∃ t, l = t ++ l.dropWhile p := by
  induction l with
  | nil => exact ⟨[], rfl⟩
  | cons c cs ih =>
    rw [List.dropWhile_cons]
    split
    · obtain ⟨t, ht⟩ := ih
      exact ⟨c :: t, by simpa using ht⟩
    · exact ⟨[], rfl⟩

/-- Extract both one-sided facts from invariance under a full strip. -/
theorem stripL_eq_self_parts (l : List Char) (h : stripL l = l) :
    l.dropWhile Char.isWhitespace = l ∧
      l.reverse.dropWhile Char.isWhitespace = l.reverse := by
  have hlen1 : (l.dropWhile Char.isWhitespace).length ≤ l.length :=
    length_dropWhileLe _ l
  have hlen2 : (stripL l).length ≤ (l.dropWhile Char.isWhitespace).length := by
    unfold stripL
    rw [List.length_reverse]
    calc ((l.dropWhile Char.isWhitespace).reverse.dropWhile Char.isWhitespace).length
        ≤ (l.dropWhile Char.isWhitespace).reverse.length := length_dropWhileLe _ _
      _ = (l.dropWhile Char.isWhitespace).length := List.length_reverse _
  have hfix : (l.dropWhile Char.isWhitespace).length = l.length := by
    have := h ▸ hlen2
    omega
  have h1 : l.dropWhile Char.isWhitespace = l :=
    dropWhile_eq_self_of_length _ _ hfix
  refine ⟨h1, ?_⟩
  have h2 : stripL l = (l.reverse.dropWhile Char.isWhitespace).reverse := by
    unfold stripL; rw [h1]
  rw [h] at h2
  have := congrArg List.reverse h2
  simpa using this.symm

theorem stripL_eq_self_of_parts (l : List Char)
    (h1 : l.dropWhile Char.isWhitespace = l)
    (h2 : l.reverse.dropWhile Char.isWhitespace = l.reverse) :
    stripL l = l := by
  unfold stripL
  rw [h1, h2, List.reverse_reverse]

/-- If a leading strip fixes `a`, then the result of stripping the reverse of
`a` and reversing back is also fixed by a leading strip (its first character,
when present, is the first character of `a`). -/
theorem dropWhile_rev_id (a : List Char) (ha : a.dropWhile Char.isWhitespace = a) :
    ((a.reverse.dropWhile Char.isWhitespace).reverse).dropWhile Char.isWhitespace
      = (a.reverse.dropWhile Char.isWhitespace).reverse := by
  obtain ⟨t, ht⟩ := dropWhile_decomp Char.isWhitespace a.reverse
  have ha2 : a = (a.reverse.dropWhile Char.isWhitespace).reverse ++ t.reverse := by
    have := congrArg List.reverse ht
    simpa [List.reverse_append] using this
  cases hrd : (a.reverse.dropWhile Char.isWhitespace).reverse with
  | nil => simp
  | cons b bs =>
    have hhead : Char.isWhitespace b = false := by
      rw [hrd] at ha2
      have ha' := ha
      rw [ha2, List.cons_append] at ha'
      exact head_false_of_dropWhile_eq_self Char.isWhitespace b _ ha'
    rw [List.dropWhile_cons, if_neg (by simp [hhead])]

theorem stripL_idem (l : List Char) : stripL (stripL l) = stripL l := by
  apply stripL_eq_self_of_parts
  · unfold stripL
    exact dropWhile_rev_id (l.dropWhile Char.isWhitespace) (dropWhile_idem _ l)
  · unfold stripL
    rw [List.reverse_reverse]
    exact dropWhile_idem _ _

theorem pyStrip_idem (s : String) : pyStrip (pyStrip s) = pyStrip s := by
  unfold pyStrip
  exact String.ext (stripL_idem s.data)

/-- Stripping is the identity on a list that begins with a non-whitespace
character and whose reverse is untouched by a leading strip. -/
theorem stripL_append_marker (c : Char) (cs y : List Char)
    (hc : Char.isWhitespace c = false) (hy : y ≠ [])
    (hy2 : y.reverse.dropWhile Char.isWhitespace = y.reverse) :
    stripL ((c :: cs) ++ y) = (c :: cs) ++ y := by
  apply stripL_eq_self_of_parts
  · rw [List.cons_append, List.dropWhile_cons, if_neg (by simp [hc])]
  · rw [List.reverse_append]
    cases hyr : y.reverse with
    | nil => exact absurd (by simpa using congrArg List.reverse hyr) hy
    | cons d ds =>
      have hd : Char.isWhitespace d = false := by
        apply head_false_of_dropWhile_eq_self Char.isWhitespace d ds
        rw [← hyr]; exact hy2
      rw [List.cons_append, List.dropWhile_cons, if_neg (by simp [hd]),
        ← List.cons_append, ← hyr]

/-- A string of the form `marker ++ u`, with `marker` beginning with a
non-whitespace character and `u` a nonempty already-stripped string, is
invariant under `pyStrip`. -/
theorem pyStrip_marker_append (m u : String) (c : Char) (cs : List Char)
    (hm : m.data = c :: cs) (hc : Char.isWhitespace c = false)
    (hu1 : pyStrip u = u) (hu2 : u ≠ "") :
    pyStrip (m ++ u) = m ++ u := by
  have hdata : (m ++ u).data = m.data ++ u.data := by
    cases m; cases u; rfl
  have hune : u.data ≠ [] := by
    intro h
    exact hu2 (String.ext (by simp [h]))
  have hu1d : stripL u.data = u.data := by
    have := congrArg String.data hu1
    simpa [pyStrip] using this
  have hparts := stripL_eq_self_parts u.data hu1d
  apply String.ext
  show stripL (m ++ u).data = (m ++ u).data
  rw [hdata, hm]
  exact stripL_append_marker c cs u.data hc hune hparts.2

theorem pyStrip_ne_empty_of (s : String) (h1 : pyStrip s = s) (h2 : s ≠ "") :
    pyStrip s ≠ "" := by rw [h1]; exact h2

/-! ### Corpus reader and writer (src/extemp_generator.py, read_articles /
write_articles_to_file)

`read_articles` splits the file on blank-line boundaries
(`re.split(r'\n\s*\n+', content.strip())`): at the level of lines this
groups maximal runs of lines whose strip is nonempty, discarding blank
separator lines and empty groups. -/

/-- Accumulator-based splitting of a line list into blank-separated blocks.
The accumulator holds the current block in reverse. -/
def splitBlocksAux : List String → List String → List (List String)
  | acc, [] => if acc = [] then [] else [acc.reverse]
  | acc, l :: ls =>
    if pyStrip l = "" then
      if acc = [] then splitBlocksAux [] ls else acc.reverse :: splitBlocksAux [] ls
    else splitBlocksAux (l :: acc) ls

/-- Blank-line block splitting used by both pipelines
(`re.split(r'\n\s*\n+', content.strip())`). -/
def splitBlocks (lines : List String) : List (List String) := splitBlocksAux [] lines

/-- Parser state of the per-block loop of `read_articles`
(`current_link`, `article_lines`, `in_article`). -/
structure RAState where
  currentLink : Option String
  articleLines : List String
  inArticle : Bool
deriving DecidableEq

/-- One iteration of the line loop of `read_articles` (lines 94-109 of
src/extemp_generator.py).  A link-marker line resets the record in
progress; a body-marker line starts body accumulation (inline content
included); other lines extend the body only when accumulation is active and
a link was seen (`current_link` is a nonempty string whenever set, so its
Python truthiness test is `isSome` here). -/
def raStep (s : RAState) (line : String) : RAState :=
  if pyStartsWith line "Link: " then ⟨some line, [], false⟩
  else if pyStartsWith line "Article: " then
    let c := pyStrip (pyDrop line 9)
    ⟨s.currentLink, if c = "" then [] else [c], true⟩
  else if s.inArticle ∧ s.currentLink.isSome then
    ⟨s.currentLink, s.articleLines ++ [line], true⟩
  else s

/-- Parse one block given its already stripped, nonempty lines: run the line
loop, then emit a record when a link and body text were collected and the
joined body exceeds the 50-character floor (lines 112-115). -/
def parseBlockCore (lines : List String) : Option (String × String) :=
  let s := lines.foldl raStep ⟨none, [], false⟩
  match s.currentLink with
  | some link =>
    if s.articleLines ≠ [] then
      let a := pyStrip (pyJoin " " s.articleLines)
      if a ≠ "" ∧ 50 < a.data.length then some (link, a) else none
    else none
  | none => none

/-- The line cleanup performed inside each block of `read_articles`
(`[line.strip() for line in block.split('\n') if line.strip()]`). -/
def cleanLines (lines : List String) : List String :=
  (lines.map pyStrip).filter (fun l => l ≠ "")

/-- Contract of `read_articles` (src/extemp_generator.py lines 59-119) on
the file's lines: blank-separated blocks, each parsed by the per-block
loop; missing/empty-file handling degenerates to the empty line list. -/
def read_articles (lines : List String) : List (String × String) :=
  (splitBlocks lines).filterMap (fun b => parseBlockCore (cleanLines b))

/-- The two lines `write_articles_to_file` emits for one record. -/
def recordLines (r : String × String) : List String := [r.1, "Article: " ++ r.2]

/-- Serialization of `write_articles_to_file` (lines 121-137): one
identifier line and one body line per record, with a single blank separator
line between records and none after the last. -/
def write_articles_to_file : List (String × String) → List String
  | [] => []
  | [r] => recordLines r
  | r :: rs => recordLines r ++ "" :: write_articles_to_file rs

/-! ### Generation step (chunking, model call, validation) -/

/-- Sentence splitting `re.split(r'(?<=[.!?])\s+', text)`: a whitespace run
preceded by `.`, `!` or `?` separates sentences and is consumed entirely.
The first argument accumulates the current sentence in reverse. -/
def sentSplitAux : List Char → List Char → List String
  | acc, [] => [⟨acc.reverse⟩]
  | acc, c :: cs =>
    if c.isWhitespace &&
        (match acc with
         | p :: _ => p == '.' || p == '!' || p == '?'
         | [] => false) then
      (⟨acc.reverse⟩ : String) :: sentSplitAux [] (cs.dropWhile Char.isWhitespace)
    else sentSplitAux (c :: acc) cs
termination_by _ l => l.length
decreasing_by
  all_goals simp only [List.length_cons, Nat.lt_succ_iff]
  · exact length_dropWhileLe _ _
  · exact Nat.le_refl _

/-- Python `re.split(r'(?<=[.!?])\s+', text)` as used by `chunk_text`. -/
def splitSentences (s : String) : List String := sentSplitAux [] s.data

/-- One iteration of the sentence loop of `chunk_text` (lines 171-181):
state is `(chunks, current_chunk, current_word_count)`. -/
def chunkStep (maxWords : Nat) (st : List String × List String × Nat)
    (sentence : String) : List String × List String × Nat :=
  let sw := pyWordCount sentence
  if maxWords < st.2.2 + sw ∧ st.2.1 ≠ [] then
    (st.1 ++ [pyJoin " " st.2.1], [sentence], sw)
  else (st.1, st.2.1 ++ [sentence], st.2.2 + sw)

/-- `chunk_text` (lines 164-187): sentence-respecting chunks of at most
`maxWords` words (a single overlong sentence still forms its own chunk). -/
def chunk_text (text : String) (maxWords : Nat) : List String :=
  let r := (splitSentences text).foldl (chunkStep maxWords) ([], [], 0)
  if r.2.1 ≠ [] then r.1 ++ [pyJoin " " r.2.1] else r.1

/-- The curated analytical indicator list of `generate_extemp_questions`
(lines 252-256). -/
def analytical_indicators : List String :=
  ["should", "how", "what are the implications", "to what extent",
   "why", "what factors", "how effective", "what impact",
   "how will", "what role", "analyze", "evaluate", "compare"]

/-- Structural validation of the model output (lines 249-268): the output is
returned unchanged when it contains the three question markers and at least
two indicators of the curated list occur in its lowercased text (each
indicator counted once however often it occurs); otherwise the empty string
is returned (treated as "no usable content", not an error). -/
def validate_output (output : String) : String :=
  if pyContains output "Q1." && pyContains output "Q2." && pyContains output "Q3." then
    if 2 ≤ (analytical_indicators.filter
        (fun ind => pyContains (pyLower output) ind)).length then
      output
    else ""
  else ""

/-- Result of one generation attempt: the chunk submitted to the model
(`none` when the model was never invoked) and the accepted output. -/
structure GenResult where
  llmChunk : Option String
  output : String
deriving DecidableEq

/-- `generate_extemp_questions` (lines 212-272) with the model's response
text passed in as a parameter (the model is the external collaborator; a
raised exception on its side is the same as an empty response).  Bodies over
1000 words are replaced by the first sentence-respecting chunk; a chunk
under 150 words aborts before the model call. -/
def generate_extemp_questions (article_text llmResponse : String) : GenResult :=
  let wc := pyWordCount article_text
  let chunk := if 1000 < wc then (chunk_text article_text 1000).headD "" else article_text
  if pyWordCount chunk < 150 then ⟨none, ""⟩
  else ⟨some chunk, validate_output (pyStrip llmResponse)⟩

/-- The per-article step of `main` (lines 317-328): articles under 150 words
are skipped before `generate_extemp_questions` is ever entered; otherwise
generation runs with the model response. -/
def mainStep (article llmResponse : String) : GenResult :=
  if pyWordCount article < 150 then ⟨none, ""⟩
  else generate_extemp_questions article llmResponse

/-- Batch bound of `main` (line 295): `min(5, len(all_articles))`. -/
def batchSize (n : Nat) : Nat := min 5 n

/-- The articles marked processed by one run of `main`: every article of the
selected batch prefix is appended to `processed_articles` whether generation
was skipped, failed or succeeded (lines 304-349). -/
def processedArticles (arts : List (String × String)) : List (String × String) :=
  arts.take (batchSize arts.length)

/-- The articles `main` keeps in the corpus:
`all_articles[len(processed_articles):]` (line 353). -/
def remainingArticles (arts : List (String × String)) : List (String × String) :=
  arts.drop (batchSize arts.length)

/-- Rewrite-with-retries protocol of `main` (lines 357-379): each attempt is
modelled by the pair of the boolean `write_articles_to_file` returned and
the file content the attempt left on disk (arbitrary, to admit injected
corruption).  An attempt succeeds when the write reported success and
re-parsing the written content yields the expected record count; when every
attempt fails, the corpus is restored from the backup taken before the
operation (`restore_from_backup`, lines 152-162) and failure is reported.
The source runs exactly one rewrite per run (batch size is at most 5, and
the periodic 10-record flush can never fire first), so the backup made at
the start of `main` is the pre-operation corpus content. -/
def rewriteWithRetries (backup : List String) (expected : Nat) :
    List (Bool × List String) → Bool × List String
  | [] => (false, backup)
  | (ok, c) :: rest =>
    if ok ∧ (read_articles c).length = expected then (true, c)
    else rewriteWithRetries backup expected rest

/-! ### Digest pipeline (src/email_sender.py) -/

/-- A question block as built by `ExtempEmailSender.read_extemp_questions`
(the dict of lines 97-102 of src/email_sender.py). -/
structure QBlock where
  link : String
  info : Option String
  content : String
  contentLines : List String
deriving DecidableEq

/-- Saving of a completed previous block when a new link line arrives
(lines 92-94 of src/email_sender.py): saved only when both the link and the
`content` field are nonempty strings (Python truthiness of the two dict
entries); since `content` is assigned exactly once, for the final block,
this check can only fail mid-stream. -/
def saveIfComplete (out : List QBlock) : Option QBlock → List QBlock
  | some b => if b.link ≠ "" ∧ b.content ≠ "" then out ++ [b] else out
  | none => out

/-- One iteration of the line loop of `read_extemp_questions` (lines
89-110).  The state is the pair of emitted blocks and the block in
progress (`current_block is not None` and the dict truthiness tests are the
`isSome` tests here, and the no-block case of the final branch maps `none`
to `none`).  The section structure produced by `re.split` has no semantic
effect because this state persists across sections, so the loop is
equivalent to a single pass over all stripped nonempty lines of the
file. -/
def qbStep (st : List QBlock × Option QBlock) (line : String) :
    List QBlock × Option QBlock :=
  if pyStartsWith line "Link: " then
    (saveIfComplete st.1 st.2, some ⟨line, none, "", []⟩)
  else if pyStartsWith line "Info: " ∧ st.2.isSome then
    (st.1, st.2.map (fun b => { b with info := some line }))
  else
    (st.1, st.2.map (fun b => { b with contentLines := b.contentLines ++ [line] }))

/-- Validity filter of `read_extemp_questions` (lines 119-127): the content
must contain a `Q1.`, `Q2.` or `Q3.` marker (`re.search(r'Q[1-3]\.', ...)`)
and its stripped length must exceed 50 characters. -/
def qbValid (b : QBlock) : Bool :=
  (pyContains b.content "Q1." || pyContains b.content "Q2." ||
    pyContains b.content "Q3.") && 50 < (pyStrip b.content).data.length

/-- Closing of the final block after the line loop (lines 112-116): when a
block is in progress with collected content lines, its `content` becomes
the lines joined by newlines and the block is emitted. -/
def closeFinal (out : List QBlock) : Option QBlock → List QBlock
  | some b =>
    if b.link ≠ "" ∧ b.contentLines ≠ [] then
      out ++ [{ b with content := pyJoin "\n" b.contentLines }]
    else out
  | none => out

/-- `read_extemp_questions` (lines 57-130) on the file's lines: run the line
loop over all stripped nonempty lines, close the final block, then keep
only valid blocks. -/
def read_extemp_questions (lines : List String) : List QBlock :=
  let cleaned := (lines.map pyStrip).filter (fun l => l ≠ "")
  let st := cleaned.foldl qbStep ([], none)
  (closeFinal st.1 st.2).filter qbValid

/-- Normalization applied by both `read_sent_log` and `write_sent_log`: a
bare entry receives the "Link: " marker, a prefixed entry is unchanged. -/
def normalizeEntry (line : String) : String :=
  if pyStartsWith line "Link: " then line else "Link: " ++ line

/-- `read_sent_log` (lines 132-161) on the log file's lines: every nonblank
stripped line is normalized to the marker-prefixed form and collected into a
set.  The source strips the whole content before splitting; per-line
stripping plus dropping blank lines yields the same entries. -/
def read_sent_log (logLines : List String) : Finset String :=
  (((logLines.map pyStrip).filter (fun l => l ≠ "")).map normalizeEntry).toFinset

/-- `write_sent_log` (lines 163-176): append the normalized identifier as
one durable line. -/
def write_sent_log (logLines : List String) (link : String) : List String :=
  logLines ++ [normalizeEntry link]

/-- Observable outcome of one `process_and_send` run: the boolean the call
returns, the sent-log lines afterwards, whether the transport collaborator
was invoked, and the digest handed to it (empty when it was not invoked). -/
structure SendOutcome where
  success : Bool
  log : List String
  transportCalled : Bool
  digest : List QBlock
deriving DecidableEq

/-- `process_and_send` (lines 824-905) with the transport collaborator's
result passed in as `sendOk` (`send_email`, lines 785-822, is the external
SMTP boundary) and the configuration check as `configOk`.  Valid blocks are
filtered against the loaded sent-log set, the first `maxQ` new blocks form
the digest, and only after the single transport call reports success is each
digest link appended to the log, in the order sent. -/
def process_and_send (extempLines logLines : List String) (maxQ : Nat)
    (configOk sendOk : Bool) : SendOutcome :=
  if ¬configOk then ⟨false, logLines, false, []⟩
  else
    let blocks := read_extemp_questions extempLines
    let sent := read_sent_log logLines
    if blocks = [] then ⟨false, logLines, false, []⟩
    else
      let newBlocks := blocks.filter (fun b => b.link ∉ sent)
      if newBlocks = [] then ⟨true, logLines, false, []⟩
      else
        let toSend := newBlocks.take maxQ
        if sendOk then
          ⟨true, toSend.foldl (fun ls b => write_sent_log ls b.link) logLines,
            true, toSend⟩
        else ⟨false, logLines, true, toSend⟩

/-! ### Helper lemmas about the corpus reader and writer -/

theorem string_data_append (s t : String) : (s ++ t).data = s.data ++ t.data := by
  cases s; cases t; rfl

theorem pyStartsWith_append (m a : String) : pyStartsWith (m ++ a) m = true := by
  unfold pyStartsWith
  rw [string_data_append]
  exact beginsWithL_append_self m.data a.data

theorem ne_empty_of_startsWith (s m : String) (hm : m ≠ "")
    (h : pyStartsWith s m = true) : s ≠ "" := by
  unfold pyStartsWith at h
  obtain ⟨t, ht⟩ := (beginsWithL_iff_append m.data s.data).mp h
  intro hs
  rw [hs] at ht
  cases hmd : m.data with
  | nil => exact hm (String.ext hmd)
  | cons c cs => rw [hmd] at ht; simp at ht

theorem article_line_not_link (a : String) :
    pyStartsWith ("Article: " ++ a) "Link: " = false := by
  unfold pyStartsWith
  rw [string_data_append]
  rfl

theorem pyDrop_article_marker (a : String) : pyDrop ("Article: " ++ a) 9 = a := by
  apply String.ext
  show (("Article: " ++ a).data).drop 9 = a.data
  rw [string_data_append]
  have h9 : ("Article: ".data).length = 9 := rfl
  rw [← h9, List.drop_left]

theorem pyJoin_singleton (sep a : String) : pyJoin sep [a] = a := by
  cases a; rfl

/-- Strip invariance of a serialized body line. -/
theorem pyStrip_article_line (a : String) (ha1 : pyStrip a = a) (ha2 : a ≠ "") :
    pyStrip ("Article: " ++ a) = "Article: " ++ a :=
  pyStrip_marker_append "Article: " a 'A' "rticle: ".data rfl (by decide) ha1 ha2

/-- Parsing the two serialized lines of a well-formed record recovers it. -/
theorem parseBlockCore_record (l a : String)
    (hl : pyStartsWith l "Link: " = true)
    (ha1 : pyStrip a = a) (ha2 : 50 < a.data.length) :
    parseBlockCore [l, "Article: " ++ a] = some (l, a) := by
  have hane : a ≠ "" := by
    intro h
    rw [h] at ha2
    simp at ha2
  have hstep1 : raStep ⟨none, [], false⟩ l = ⟨some l, [], false⟩ := by
    unfold raStep
    rw [if_pos hl]
  have hstep2 : raStep ⟨some l, [], false⟩ ("Article: " ++ a) = ⟨some l, [a], true⟩ := by
    unfold raStep
    rw [if_neg (by simp [article_line_not_link a]), if_pos (pyStartsWith_append _ _)]
    simp only [pyDrop_article_marker, ha1]
    rw [if_neg hane]
  unfold parseBlockCore
  simp only [List.foldl_cons, List.foldl_nil, hstep1, hstep2]
  rw [if_pos (by simp), pyJoin_singleton, ha1, if_pos ⟨hane, ha2⟩]

/-- Well-formedness of one record for the round-trip property: a
"Link: "-marker identifier and a stripped single-line body longer than the
50-character floor (the newline-freedom conjuncts state single-line-ness at
the physical-file level; in the line-based embedding they are not otherwise
consumed). -/
def WellFormedRecord (r : String × String) : Prop :=
  pyStartsWith r.1 "Link: " = true ∧ pyStrip r.1 = r.1 ∧
    pyStrip r.2 = r.2 ∧ 50 < r.2.data.length ∧
    '\n' ∉ r.1.data ∧ '\r' ∉ r.1.data ∧ '\n' ∉ r.2.data ∧ '\r' ∉ r.2.data

instance : DecidablePred WellFormedRecord := fun r => by
  unfold WellFormedRecord
  infer_instance

theorem cleanLines_record (r : String × String) (h : WellFormedRecord r) :
    cleanLines (recordLines r) = recordLines r := by
  obtain ⟨h1, h2, h3, h4, -⟩ := h
  have hane : r.2 ≠ "" := by
    intro he
    rw [he] at h4
    simp at h4
  have hlne : r.1 ≠ "" := ne_empty_of_startsWith _ _ (by decide) h1
  have hart : pyStrip ("Article: " ++ r.2) = "Article: " ++ r.2 :=
    pyStrip_article_line r.2 h3 hane
  have hartne : ("Article: " ++ r.2) ≠ "" :=
    ne_empty_of_startsWith _ _ (by decide) (pyStartsWith_append "Article: " r.2)
  unfold cleanLines recordLines
  simp only [List.map_cons, List.map_nil, h2, hart]
  rw [List.filter_cons_of_pos (by simpa using hlne),
    List.filter_cons_of_pos (by simpa using hartne), List.filter_nil]

theorem splitBlocksAux_cons_nonblank (acc : List String) (l : String)
    (ls : List String) (h : ¬pyStrip l = "") :
    splitBlocksAux acc (l :: ls) = splitBlocksAux (l :: acc) ls := by
  simp only [splitBlocksAux, if_neg h]

theorem splitBlocksAux_nonblank (b : List String) (hb : ∀ x ∈ b, pyStrip x ≠ "") :
    ∀ acc rest, splitBlocksAux acc (b ++ rest) = splitBlocksAux (b.reverse ++ acc) rest := by
  induction b with
  | nil => intro acc rest; simp
  | cons x xs ih =>
    intro acc rest
    have hx : pyStrip x ≠ "" := hb x (by simp)
    rw [List.cons_append, splitBlocksAux_cons_nonblank acc x (xs ++ rest) hx,
      ih (fun y hy => hb y (by simp [hy])) (x :: acc) rest]
    congr 1
    simp

theorem splitBlocksAux_end (acc : List String) (hacc : acc ≠ []) :
    splitBlocksAux acc [] = [acc.reverse] := by
  simp only [splitBlocksAux, if_neg hacc]

theorem splitBlocksAux_blank_sep (acc rest : List String) (hacc : acc ≠ []) :
    splitBlocksAux acc ("" :: rest) = acc.reverse :: splitBlocksAux [] rest := by
  simp only [splitBlocksAux]
  rw [if_pos (by rfl), if_neg hacc]

/-- Lines of a well-formed record are nonblank. -/
theorem record_lines_nonblank (r : String × String) (h : WellFormedRecord r) :
    ∀ x ∈ recordLines r, pyStrip x ≠ "" := by
  obtain ⟨h1, h2, h3, h4, -⟩ := h
  have hane : r.2 ≠ "" := by
    intro he
    rw [he] at h4
    simp at h4
  intro x hx
  simp only [recordLines, List.mem_cons, List.not_mem_nil, or_false] at hx
  rcases hx with hx | hx
  · rw [hx, h2]
    exact ne_empty_of_startsWith _ _ (by decide) h1
  · rw [hx, pyStrip_article_line r.2 h3 hane]
    exact ne_empty_of_startsWith _ _ (by decide) (pyStartsWith_append "Article: " r.2)

theorem splitBlocks_serialized (recs : List (String × String))
    (h : ∀ r ∈ recs, WellFormedRecord r) :
    splitBlocks (write_articles_to_file recs) = recs.map recordLines := by
  induction recs with
  | nil => rfl
  | cons r rs ih =>
    have hr := record_lines_nonblank r (h r (by simp))
    have hne : recordLines r ≠ [] := by unfold recordLines; simp
    cases rs with
    | nil =>
      show splitBlocksAux [] (recordLines r) = [recordLines r]
      have := splitBlocksAux_nonblank (recordLines r) hr [] []
      rw [List.append_nil] at this
      rw [this, List.append_nil,
        splitBlocksAux_end _ (by simpa using hne), List.reverse_reverse]
    | cons r2 tl =>
      show splitBlocksAux [] (recordLines r ++ "" :: write_articles_to_file (r2 :: tl))
        = recordLines r :: (r2 :: tl).map recordLines
      rw [splitBlocksAux_nonblank (recordLines r) hr [] _, List.append_nil,
        splitBlocksAux_blank_sep _ _ (by simpa using hne), List.reverse_reverse]
      exact congrArg _ (ih (fun x hx => h x (by simp [hx])))

/-- C4: round-trip of the corpus serialization.  For every sequence of
records whose identifiers are nonempty "Link: "-marker lines and whose
bodies are stripped single-line text longer than the 50-character floor,
re-parsing the serialized file yields the records unchanged:
`read_articles (write_articles_to_file recs) = recs`. -/
theorem C4_parse_serialize_roundtrip (recs : List (String × String))
    (h : ∀ r ∈ recs, WellFormedRecord r) :
    read_articles (write_articles_to_file recs) = recs := by
  unfold read_articles
  rw [splitBlocks_serialized recs h]
  induction recs with
  | nil => rfl
  | cons r rs ih =>
    have hr := h r (by simp)
    have hparse : parseBlockCore (cleanLines (recordLines r)) = some r := by
      rw [cleanLines_record r hr]
      show parseBlockCore [r.1, "Article: " ++ r.2] = some (r.1, r.2)
      exact parseBlockCore_record r.1 r.2 hr.1 hr.2.2.1 hr.2.2.2.1
    rw [List.map_cons, List.filterMap_cons, hparse]
    exact congrArg _ (ih (fun x hx => h x (by simp [hx])))

/-- C4 witness: a concrete two-record corpus round-trips. -/
theorem C4_parse_serialize_roundtrip_witness :
    read_articles (write_articles_to_file
      [("Link: http://example.org/a",
        "The committee weighed the budget proposal for many hours today."),
       ("Link: http://example.org/b",
        "Observers described the outcome of the vote as far from certain.")])
      = [("Link: http://example.org/a",
        "The committee weighed the budget proposal for many hours today."),
       ("Link: http://example.org/b",
        "Observers described the outcome of the vote as far from certain.")] :=
  C4_parse_serialize_roundtrip _ (by decide)

/-- C8: the corpus reader emits at most one record per blank-separated block
(one `Option` per block), and within a block everything accumulated before a
link-marker line is discarded by it: parsing any `pre ++ link :: post` gives
the same result as parsing `link :: post` alone, so only the last link line
of a block can produce a record. -/
theorem C8_one_record_per_block_last_link_wins :
    (∀ lines : List String,
      (read_articles lines).length ≤ (splitBlocks lines).length)
    ∧ (∀ (pre post : List String) (link : String),
        pyStartsWith link "Link: " = true →
        parseBlockCore (pre ++ link :: post) = parseBlockCore (link :: post)) := by
  constructor
  · intro lines
    unfold read_articles
    exact List.length_filterMap_le _ _
  · intro pre post link h
    have hreset : ∀ s : RAState, raStep s link = ⟨some link, [], false⟩ := by
      intro s
      unfold raStep
      rw [if_pos h]
    unfold parseBlockCore
    simp only [List.foldl_append, List.foldl_cons, hreset]

/-- C8 witness: a block with two link lines parses exactly as its suffix
from the second link line, and a concrete file obeys the per-block bound. -/
theorem C8_one_record_per_block_last_link_wins_witness :
    (read_articles ["Link: a", "Article: b"]).length
        ≤ (splitBlocks ["Link: a", "Article: b"]).length
    ∧ parseBlockCore (["Link: old", "Article: earlier text"]
          ++ "Link: new" :: ["Article: later text"])
        = parseBlockCore ("Link: new" :: ["Article: later text"]) :=
  ⟨C8_one_record_per_block_last_link_wins.1 _,
    C8_one_record_per_block_last_link_wins.2 _ _ _ (by decide)⟩

/-- C3: when every rewrite attempt fails (the write call reports failure or
re-parsing the written content gives a record count different from the
expected remaining count), the bounded-retry rewrite restores the corpus
from the backup taken before the operation and reports failure, so the
corpus content after the operation equals its content before it and no
record is durably marked processed. -/
theorem C3_failed_rewrite_restores_backup (backup : List String) (expected : Nat)
    (attempts : List (Bool × List String))
    (h : ∀ a ∈ attempts, a.1 = true → (read_articles a.2).length ≠ expected) :
    rewriteWithRetries backup expected attempts = (false, backup) := by
  induction attempts with
  | nil => rfl
  | cons a rest ih =>
    obtain ⟨ok, c⟩ := a
    have ha := h (ok, c) (by simp)
    unfold rewriteWithRetries
    rw [if_neg]
    · exact ih (fun x hx hx1 => h x (by simp [hx]) hx1)
    · rintro ⟨hok, hc⟩
      exact ha hok hc

/-- C3 witness: three concretely corrupted attempts (empty write, failed
write call, garbage write) all mismatch, and the original corpus content is
restored. -/
theorem C3_failed_rewrite_restores_backup_witness :
    rewriteWithRetries ["Link: a", "Article: body"] 1
      [(true, []), (false, ["Link: a", "Article: body"]), (true, ["garbage"])]
      = (false, ["Link: a", "Article: body"]) :=
  C3_failed_rewrite_restores_backup _ _ _ (by decide)

/-- C5: an article of the selected batch whose body has fewer than 150 words
never reaches the model call (`mainStep` skips before
`generate_extemp_questions` is entered), yet the article is still part of
the processed prefix, and the corpus keeps exactly the suffix after the
processed articles. -/
theorem C5_short_body_skips_model (arts : List (String × String)) (i : Nat)
    (hlen : i < arts.length) (hi : i < batchSize arts.length) (resp : String)
    (hshort : pyWordCount (arts.get ⟨i, hlen⟩).2 < 150) :
    (mainStep (arts.get ⟨i, hlen⟩).2 resp).llmChunk = none
    ∧ arts.get ⟨i, hlen⟩ ∈ processedArticles arts
    ∧ remainingArticles arts = arts.drop (processedArticles arts).length := by
  refine ⟨?_, ?_, ?_⟩
  · unfold mainStep
    rw [if_pos hshort]
  · unfold processedArticles
    have htl : i < (arts.take (batchSize arts.length)).length := by
      rw [List.length_take]
      exact lt_min hi hlen
    have hsame : (arts.take (batchSize arts.length)).get ⟨i, htl⟩
        = arts.get ⟨i, hlen⟩ := by
      simp [List.getElem_take]
    rw [← hsame]
    exact List.get_mem _ _ _
  · unfold remainingArticles processedArticles
    rw [List.length_take]
    congr 1
    exact (Nat.min_eq_left (Nat.min_le_right 5 arts.length)).symm

/-- C5 witness: a one-article corpus with a nine-word body is processed and
removed without a model call. -/
theorem C5_short_body_skips_model_witness :
    (mainStep "a body with far too few words to qualify" "resp").llmChunk = none
    ∧ ("Link: a", "a body with far too few words to qualify")
        ∈ processedArticles [("Link: a", "a body with far too few words to qualify")]
    ∧ remainingArticles [("Link: a", "a body with far too few words to qualify")]
        = List.drop (processedArticles
            [("Link: a", "a body with far too few words to qualify")]).length
            [("Link: a", "a body with far too few words to qualify")] :=
  C5_short_body_skips_model
    [("Link: a", "a body with far too few words to qualify")] 0
    (by decide) (by decide) "resp" (by decide)

/-- Acceptance condition of claim C6 exactly as the claim words it: the
three question markers are present and the curated analytical markers occur
at least twice in total across the lowercased output (occurrences counted
with multiplicity). -/
def claimC6Accepts (o : String) : Prop :=
  pyContains o "Q1." = true ∧ pyContains o "Q2." = true ∧ pyContains o "Q3." = true
  ∧ 2 ≤ (analytical_indicators.map
      (fun ind => occCount ind.data (pyLower o).data)).sum

instance : DecidablePred claimC6Accepts := fun o => by
  unfold claimC6Accepts
  infer_instance

/-- Acceptance condition the code actually implements: at least two
distinct markers of the curated list occur in the lowercased output, each
counted once however often it appears. -/
def acceptedAmendedC6 (o : String) : Prop :=
  pyContains o "Q1." = true ∧ pyContains o "Q2." = true ∧ pyContains o "Q3." = true
  ∧ 2 ≤ (analytical_indicators.filter
      (fun ind => pyContains (pyLower o) ind)).length

/-- C6 counterexample: an output containing Q1., Q2., Q3. and three
occurrences of the curated marker "should" (so at least two occurrences in
total, as the claim requires), but only one distinct curated marker — the
code rejects it and returns the empty string rather than the output. -/
theorem C6_counterexample :
    claimC6Accepts "Q1. Should it pass? Q2. Should it stay? Q3. Should it go?"
    ∧ validate_output "Q1. Should it pass? Q2. Should it stay? Q3. Should it go?" = ""
    ∧ ("Q1. Should it pass? Q2. Should it stay? Q3. Should it go?" : String) ≠ "" := by
  refine ⟨by decide, by decide, by decide⟩

/-- C6 amended: an output is accepted (returned unchanged as usable
content) exactly when it contains all three ordinal question markers and at
least two distinct curated analytical markers occur in it; otherwise the
code returns the empty string (empty output, not an error). -/
theorem C6_output_validation_amended (o : String) :
    (acceptedAmendedC6 o ∧ validate_output o = o)
    ∨ (¬acceptedAmendedC6 o ∧ validate_output o = "") := by
  unfold acceptedAmendedC6 validate_output
  by_cases hq : (pyContains o "Q1." && pyContains o "Q2." && pyContains o "Q3.") = true
  · by_cases hc : 2 ≤ (analytical_indicators.filter
        (fun ind => pyContains (pyLower o) ind)).length
    · left
      simp only [Bool.and_eq_true] at hq
      exact ⟨⟨hq.1.1, hq.1.2, hq.2, hc⟩, by rw [if_pos, if_pos hc]; simpa [Bool.and_eq_true] using hq⟩
    · right
      refine ⟨fun hacc => hc hacc.2.2.2, ?_⟩
      rw [if_pos hq, if_neg hc]
  · right
    refine ⟨fun hacc => hq ?_, by rw [if_neg hq]⟩
    simp only [Bool.and_eq_true]
    exact ⟨⟨hacc.1, hacc.2.1⟩, hacc.2.2.1⟩

/-! ### Helper lemmas about the sent log and the digest pipeline -/

theorem normalizeEntry_eq_of_marker (x : String)
    (h : pyStartsWith x "Link: " = true) : normalizeEntry x = x := by
  unfold normalizeEntry
  rw [if_pos h]

theorem normalizeEntry_eq_of_bare (x : String)
    (h : pyStartsWith x "Link: " = false) : normalizeEntry x = "Link: " ++ x := by
  unfold normalizeEntry
  rw [if_neg (by simp [h])]

theorem normalizeEntry_startsWith (x : String) :
    pyStartsWith (normalizeEntry x) "Link: " = true := by
  by_cases h : pyStartsWith x "Link: " = true
  · rw [normalizeEntry_eq_of_marker x h]
    exact h
  · rw [normalizeEntry_eq_of_bare x (by simpa using h)]
    exact pyStartsWith_append "Link: " x

theorem normalizeEntry_idem (x : String) :
    normalizeEntry (normalizeEntry x) = normalizeEntry x :=
  normalizeEntry_eq_of_marker _ (normalizeEntry_startsWith x)

theorem normalizeEntry_ne_empty (x : String) : normalizeEntry x ≠ "" :=
  ne_empty_of_startsWith _ _ (by decide) (normalizeEntry_startsWith x)

theorem pyStrip_normalizeEntry (x : String) (h1 : pyStrip x = x) (h2 : x ≠ "") :
    pyStrip (normalizeEntry x) = normalizeEntry x := by
  by_cases h : pyStartsWith x "Link: " = true
  · rw [normalizeEntry_eq_of_marker x h]
    exact h1
  · rw [normalizeEntry_eq_of_bare x (by simpa using h)]
    exact pyStrip_marker_append "Link: " x 'L' "ink: ".data rfl (by decide) h1 h2

theorem mem_read_sent_log_of_line (ls : List String) (x : String) (hx : x ∈ ls)
    (h1 : pyStrip x = x) (h2 : x ≠ "") : normalizeEntry x ∈ read_sent_log ls := by
  unfold read_sent_log
  rw [List.mem_toFinset]
  apply List.mem_map_of_mem
  rw [List.mem_filter]
  refine ⟨?_, by simpa using h2⟩
  rw [← h1]
  exact List.mem_map_of_mem _ hx

theorem read_sent_log_append (a b : List String) :
    read_sent_log (a ++ b) = read_sent_log a ∪ read_sent_log b := by
  unfold read_sent_log
  rw [List.map_append, List.filter_append, List.map_append, List.toFinset_append]

/-- C7: loading the idempotency log normalizes every nonblank entry to the
marker-prefixed canonical form (every member of the loaded set carries the
"Link: " marker), so an identifier stored in either historical format —
bare or marker-prefixed — is recognized under its canonical prefixed form. -/
theorem C7_sent_log_normalization (logLines : List String) (u : String)
    (hu1 : pyStrip u = u) (hu2 : u ≠ "") (hu3 : pyStartsWith u "Link: " = false) :
    (∀ e ∈ read_sent_log logLines, pyStartsWith e "Link: " = true)
    ∧ ((u ∈ logLines ∨ ("Link: " ++ u) ∈ logLines) →
        ("Link: " ++ u) ∈ read_sent_log logLines) := by
  constructor
  · intro e he
    unfold read_sent_log at he
    rw [List.mem_toFinset] at he
    obtain ⟨x, -, rfl⟩ := List.mem_map.mp he
    exact normalizeEntry_startsWith x
  · rintro (hmem | hmem)
    · have h := mem_read_sent_log_of_line logLines u hmem hu1 hu2
      rwa [normalizeEntry_eq_of_bare u hu3] at h
    · have hstrip : pyStrip ("Link: " ++ u) = "Link: " ++ u :=
        pyStrip_marker_append "Link: " u 'L' "ink: ".data rfl (by decide) hu1 hu2
      have hne : ("Link: " ++ u) ≠ "" :=
        ne_empty_of_startsWith _ _ (by decide) (pyStartsWith_append "Link: " u)
      have h := mem_read_sent_log_of_line logLines _ hmem hstrip hne
      rwa [normalizeEntry_eq_of_marker _ (pyStartsWith_append "Link: " u)] at h

/-- C7 witness: a log mixing a bare and a prefixed entry recognizes the
bare-stored identifier under its canonical prefixed form. -/
theorem C7_sent_log_normalization_witness :
    ("Link: " ++ "http://example.org/x")
      ∈ read_sent_log ["http://example.org/x", "Link: http://example.org/y"] :=
  (C7_sent_log_normalization ["http://example.org/x", "Link: http://example.org/y"]
    "http://example.org/x" (by decide) (by decide) (by decide)).2 (Or.inl (by decide))

/-- C9: appending an identifier (bare or already prefixed) to the sent log
and loading it back yields a set containing the canonical prefixed form,
and appending the same identifier a second time leaves the loaded set
unchanged — duplicates affect only the file. -/
theorem C9_append_load_membership (logLines : List String) (u : String)
    (hu1 : pyStrip u = u) (hu2 : u ≠ "") :
    normalizeEntry u ∈ read_sent_log (write_sent_log logLines u)
    ∧ read_sent_log (write_sent_log (write_sent_log logLines u) u)
        = read_sent_log (write_sent_log logLines u) := by
  have hstrip := pyStrip_normalizeEntry u hu1 hu2
  have hne := normalizeEntry_ne_empty u
  constructor
  · have h := mem_read_sent_log_of_line (write_sent_log logLines u)
      (normalizeEntry u) (by unfold write_sent_log; simp) hstrip hne
    rwa [normalizeEntry_idem] at h
  · show read_sent_log ((logLines ++ [normalizeEntry u]) ++ [normalizeEntry u])
      = read_sent_log (logLines ++ [normalizeEntry u])
    rw [read_sent_log_append (logLines ++ [normalizeEntry u]),
      read_sent_log_append logLines, Finset.union_assoc, Finset.union_self]

/-- C9 witness: a concrete bare identifier appended once and twice. -/
theorem C9_append_load_membership_witness :
    normalizeEntry "http://example.org/z"
        ∈ read_sent_log (write_sent_log ["Link: old"] "http://example.org/z")
    ∧ read_sent_log (write_sent_log
          (write_sent_log ["Link: old"] "http://example.org/z") "http://example.org/z")
        = read_sent_log (write_sent_log ["Link: old"] "http://example.org/z") :=
  C9_append_load_membership ["Link: old"] "http://example.org/z" (by decide) (by decide)

/-- Links of parsed question blocks are stripped "Link: "-marker lines. -/
def LinkWF (l : String) : Prop :=
  pyStartsWith l "Link: " = true ∧ pyStrip l = l

theorem saveIfComplete_linkWF (out : List QBlock) (cb : Option QBlock)
    (h1 : ∀ b ∈ out, LinkWF b.link) (h2 : ∀ b ∈ cb, LinkWF b.link) :
    ∀ b ∈ saveIfComplete out cb, LinkWF b.link := by
  intro b hb
  cases cb with
  | none => exact h1 b hb
  | some b0 =>
    simp only [saveIfComplete] at hb
    by_cases hk : b0.link ≠ "" ∧ b0.content ≠ ""
    · rw [if_pos hk] at hb
      rcases List.mem_append.mp hb with h | h
      · exact h1 b h
      · rw [List.mem_singleton] at h
        rw [h]
        exact h2 b0 (by simp)
    · rw [if_neg hk] at hb
      exact h1 b hb

theorem qbStep_linkWF (st : List QBlock × Option QBlock) (l : String)
    (hl : pyStrip l = l)
    (h1 : ∀ b ∈ st.1, LinkWF b.link) (h2 : ∀ b ∈ st.2, LinkWF b.link) :
    (∀ b ∈ (qbStep st l).1, LinkWF b.link)
      ∧ ∀ b ∈ (qbStep st l).2, LinkWF b.link := by
  obtain ⟨out, cb⟩ := st
  by_cases ha : pyStartsWith l "Link: " = true
  · simp only [qbStep, if_pos ha]
    refine ⟨saveIfComplete_linkWF out cb h1 h2, fun b hb => ?_⟩
    rw [Option.mem_def, Option.some_inj] at hb
    rw [← hb]
    exact ⟨ha, hl⟩
  · by_cases hi : (pyStartsWith l "Info: " = true) ∧ cb.isSome = true
    · simp only [qbStep, if_neg ha, if_pos hi]
      refine ⟨fun b hb => h1 b hb, fun b hb => ?_⟩
      cases cb with
      | none => simp at hb
      | some b0 =>
        simp at hb
        rw [← hb]
        exact h2 b0 (by simp)
    · simp only [qbStep, if_neg ha, if_neg hi]
      refine ⟨fun b hb => h1 b hb, fun b hb => ?_⟩
      cases cb with
      | none => simp at hb
      | some b0 =>
        simp at hb
        rw [← hb]
        exact h2 b0 (by simp)

theorem qbFold_linkWF (ls : List String) (hws : ∀ l ∈ ls, pyStrip l = l) :
    ∀ st : List QBlock × Option QBlock, (∀ b ∈ st.1, LinkWF b.link) →
      (∀ b ∈ st.2, LinkWF b.link) →
      (∀ b ∈ (ls.foldl qbStep st).1, LinkWF b.link)
        ∧ ∀ b ∈ (ls.foldl qbStep st).2, LinkWF b.link := by
  induction ls with
  | nil => intro st hs1 hs2; simpa using ⟨hs1, hs2⟩
  | cons l ls ih =>
    intro st hs1 hs2
    rw [List.foldl_cons]
    have hstep := qbStep_linkWF st l (hws l (by simp)) hs1 hs2
    exact ih (fun x hx => hws x (by simp [hx])) _ hstep.1 hstep.2

theorem closeFinal_linkWF (out : List QBlock) (cb : Option QBlock)
    (h1 : ∀ b ∈ out, LinkWF b.link) (h2 : ∀ b ∈ cb, LinkWF b.link) :
    ∀ b ∈ closeFinal out cb, LinkWF b.link := by
  intro b hb
  cases cb with
  | none => exact h1 b hb
  | some b0 =>
    simp only [closeFinal] at hb
    by_cases hk : b0.link ≠ "" ∧ b0.contentLines ≠ []
    · rw [if_pos hk] at hb
      rcases List.mem_append.mp hb with h | h
      · exact h1 b h
      · rw [List.mem_singleton] at h
        rw [h]
        exact h2 b0 (by simp)
    · rw [if_neg hk] at hb
      exact h1 b hb

theorem read_extemp_link_wf (lines : List String) (b : QBlock)
    (hb : b ∈ read_extemp_questions lines) : LinkWF b.link := by
  have hclean : ∀ l ∈ (lines.map pyStrip).filter (fun l => l ≠ ""),
      pyStrip l = l := by
    intro l hl
    rw [List.mem_filter] at hl
    obtain ⟨x, -, rfl⟩ := List.mem_map.mp hl.1
    exact String.ext (stripL_idem x.data)
  have hfold := qbFold_linkWF _ hclean ([], none) (by simp) (by simp)
  simp only [read_extemp_questions, List.mem_filter] at hb
  exact closeFinal_linkWF _ _ hfold.1 hfold.2 b hb.1

/-- A block in the outgoing digest always has a link absent from the loaded
sent-log set: the digest is a truncation of the filter over parsed blocks. -/
theorem digest_link_not_sent (e l : List String) (m : Nat) (cfg s : Bool)
    (b : QBlock) (hb : b ∈ (process_and_send e l m cfg s).digest) :
    b.link ∉ read_sent_log l := by
  simp only [process_and_send] at hb
  split at hb
  · simp at hb
  · split at hb
    · simp at hb
    · split at hb
      · simp at hb
      · split at hb
        all_goals
          simp only [] at hb
          have hmem := List.mem_of_mem_take hb
          rw [List.mem_filter] at hmem
          exact of_decide_eq_true hmem.2

/-- C1: once a block's link identifier has been appended to the sent log,
every subsequent selection pass excludes the block from the outbound
digest, whatever further lines are later appended to the log and however
many digest cycles run; deduplication is identifier equality between the
block's link line and the normalized log entries. -/
theorem C1_no_double_send (e logLines extra : List String) (b : QBlock)
    (m : Nat) (cfg s : Bool) (hb : b ∈ read_extemp_questions e) :
    b ∉ (process_and_send e (write_sent_log logLines b.link ++ extra)
        m cfg s).digest := by
  intro hd
  have hwf := read_extemp_link_wf e b hb
  have hnorm : normalizeEntry b.link = b.link := normalizeEntry_eq_of_marker _ hwf.1
  have hne : b.link ≠ "" := ne_empty_of_startsWith _ _ (by decide) hwf.1
  have hmem : b.link ∈ read_sent_log (write_sent_log logLines b.link ++ extra) := by
    have hx : b.link ∈ write_sent_log logLines b.link ++ extra := by
      unfold write_sent_log
      rw [hnorm]
      simp
    have h := mem_read_sent_log_of_line _ _ hx hwf.2 hne
    rwa [hnorm] at h
  exact digest_link_not_sent _ _ _ _ _ _ hd hmem

set_option maxHeartbeats 2000000 in
/-- C1 witness: a concrete parsed block is excluded from the digest after
its link is logged. -/
theorem C1_no_double_send_witness :
    (⟨"Link: http://a", none,
      "Q1. Should the example assembly adopt the new measure this year?",
      ["Q1. Should the example assembly adopt the new measure this year?"]⟩ : QBlock)
    ∉ (process_and_send
        ["Link: http://a",
         "Q1. Should the example assembly adopt the new measure this year?"]
        (write_sent_log [] "Link: http://a" ++ []) 5 true true).digest :=
  C1_no_double_send
    ["Link: http://a",
     "Q1. Should the example assembly adopt the new measure this year?"]
    [] [] _ 5 true true (by decide)

/-- The transport collaborator is invoked only when the configuration is
valid, valid blocks exist, and some of them are new. -/
theorem transport_called_conds (e l : List String) (m : Nat) (cfg s : Bool)
    (h : (process_and_send e l m cfg s).transportCalled = true) :
    cfg = true ∧ read_extemp_questions e ≠ []
    ∧ (read_extemp_questions e).filter
        (fun b => b.link ∉ read_sent_log l) ≠ [] := by
  by_cases hc : cfg = true
  · by_cases hb : read_extemp_questions e = []
    · exfalso
      simp [process_and_send, hc, hb] at h
    · by_cases hn : (read_extemp_questions e).filter
          (fun b => b.link ∉ read_sent_log l) = []
      · exfalso
        have hall : ∀ a ∈ read_extemp_questions e, a.link ∈ read_sent_log l := by
          intro a ha
          by_contra hnot
          have hmem : a ∈ (read_extemp_questions e).filter
              (fun b => b.link ∉ read_sent_log l) := by
            rw [List.mem_filter]
            exact ⟨ha, by simpa using hnot⟩
          rw [hn] at hmem
          simp at hmem
        simp [process_and_send, hc, hb] at h
        rw [if_pos hall] at h
        simp at h
      · exact ⟨hc, hb, hn⟩
  · exfalso
    have hcf : cfg = false := by
      cases cfg
      · rfl
      · exact absurd rfl hc
    simp [process_and_send, hcf] at h

theorem foldl_write_sent_log (bs : List QBlock) (ls : List String) :
    bs.foldl (fun acc b => write_sent_log acc b.link) ls
      = ls ++ bs.map (fun b => normalizeEntry b.link) := by
  induction bs generalizing ls with
  | nil => simp
  | cons b bs ih =>
    rw [List.foldl_cons, ih]
    unfold write_sent_log
    simp

/-- C2: when the single transport call for a digest fails, the run reports
failure and the sent log is unchanged; the selection is deterministic in
its inputs, so a rerun with the same files computes the identical digest;
and log appends happen only on a successful transport call, one normalized
identifier per digest block, in the order sent. -/
theorem C2_transport_failure_no_log_update (e l : List String) (m : Nat)
    (cfg : Bool)
    (hcall : (process_and_send e l m cfg false).transportCalled = true) :
    (process_and_send e l m cfg false).success = false
    ∧ (process_and_send e l m cfg false).log = l
    ∧ (∀ s2 : Bool, (process_and_send e l m cfg s2).digest
        = (process_and_send e l m cfg false).digest)
    ∧ (process_and_send e l m cfg true).log
        = l ++ ((process_and_send e l m cfg true).digest).map
            (fun b => normalizeEntry b.link) := by
  obtain ⟨hc, hb, hn⟩ := transport_called_conds e l m cfg false hcall
  have hred : ∀ s : Bool, process_and_send e l m cfg s =
      if s then
        ⟨true, ((read_extemp_questions e).filter
            (fun b => b.link ∉ read_sent_log l)).take m
          |>.foldl (fun acc b => write_sent_log acc b.link) l, true,
          ((read_extemp_questions e).filter
            (fun b => b.link ∉ read_sent_log l)).take m⟩
      else
        ⟨false, l, true, ((read_extemp_questions e).filter
            (fun b => b.link ∉ read_sent_log l)).take m⟩ := by
    intro s
    simp only [process_and_send, hc, not_true_eq_false, if_false, if_neg hb,
      if_neg hn]
  refine ⟨?_, ?_, ?_, ?_⟩
  · rw [hred false]; rfl
  · rw [hred false]; rfl
  · intro s2
    cases s2
    · rfl
    · rw [hred true, hred false]
      rfl
  · rw [hred true]
    exact foldl_write_sent_log _ _

set_option maxHeartbeats 2000000 in
/-- C2 witness: with one new valid block and a failing transport the run
fails with the log unchanged, the digest is the same for a rerun, and a
successful transport appends exactly the digest links in order. -/
theorem C2_transport_failure_no_log_update_witness :
    (process_and_send
        ["Link: http://a",
         "Q1. Should the example assembly adopt the new measure this year?"]
        ["Link: old"] 5 true false).success = false
    ∧ (process_and_send
        ["Link: http://a",
         "Q1. Should the example assembly adopt the new measure this year?"]
        ["Link: old"] 5 true false).log = ["Link: old"]
    ∧ (process_and_send
        ["Link: http://a",
         "Q1. Should the example assembly adopt the new measure this year?"]
        ["Link: old"] 5 true true).digest
      = (process_and_send
        ["Link: http://a",
         "Q1. Should the example assembly adopt the new measure this year?"]
        ["Link: old"] 5 true false).digest
    ∧ (process_and_send
        ["Link: http://a",
         "Q1. Should the example assembly adopt the new measure this year?"]
        ["Link: old"] 5 true true).log
      = ["Link: old"] ++ ((process_and_send
          ["Link: http://a",
           "Q1. Should the example assembly adopt the new measure this year?"]
          ["Link: old"] 5 true true).digest).map
          (fun b => normalizeEntry b.link) := by
  have h := C2_transport_failure_no_log_update
    ["Link: http://a",
     "Q1. Should the example assembly adopt the new measure this year?"]
    ["Link: old"] 5 true (by decide)
  exact ⟨h.1, h.2.1, h.2.2.1 true, h.2.2.2⟩

/-- C10: with a valid configuration, `process_and_send` returns failure
when the parsed output file yields no valid question blocks at all; and
when valid blocks exist but every one of them is already in the sent log,
it returns success without invoking the transport collaborator and without
writing to the sent log. -/
theorem C10_no_blocks_fails_all_sent_succeeds (e l : List String) (m : Nat)
    (s : Bool) :
    (read_extemp_questions e = [] →
      (process_and_send e l m true s).success = false)
    ∧ (read_extemp_questions e ≠ [] →
        (∀ b ∈ read_extemp_questions e, b.link ∈ read_sent_log l) →
        (process_and_send e l m true s).success = true
        ∧ (process_and_send e l m true s).transportCalled = false
        ∧ (process_and_send e l m true s).log = l) := by
  constructor
  · intro hb
    simp only [process_and_send, not_true_eq_false, if_false, if_pos hb]
  · intro hb hall
    have hn : (read_extemp_questions e).filter
        (fun b => b.link ∉ read_sent_log l) = [] := by
      rw [List.filter_eq_nil_iff]
      intro b hmem
      simp [hall b hmem]
    simp only [process_and_send, not_true_eq_false, if_false, if_neg hb,
      hn, if_pos rfl]
    exact ⟨rfl, rfl, rfl⟩

set_option maxHeartbeats 2000000 in
/-- C10 witness: an empty output file fails; a file whose only valid block
is already logged succeeds with no transport call and no log write. -/
theorem C10_no_blocks_fails_all_sent_succeeds_witness :
    (process_and_send [] ["Link: old"] 5 true true).success = false
    ∧ (process_and_send
        ["Link: http://a",
         "Q1. Should the example assembly adopt the new measure this year?"]
        ["Link: http://a"] 5 true true).success = true
    ∧ (process_and_send
        ["Link: http://a",
         "Q1. Should the example assembly adopt the new measure this year?"]
        ["Link: http://a"] 5 true true).transportCalled = false
    ∧ (process_and_send
        ["Link: http://a",
         "Q1. Should the example assembly adopt the new measure this year?"]
        ["Link: http://a"] 5 true true).log = ["Link: http://a"] := by
  have h1 := (C10_no_blocks_fails_all_sent_succeeds [] ["Link: old"] 5 true).1
    (by decide)
  have h2 := (C10_no_blocks_fails_all_sent_succeeds
    ["Link: http://a",
     "Q1. Should the example assembly adopt the new measure this year?"]
    ["Link: http://a"] 5 true).2 (by decide) (by decide)
  exact ⟨h1, h2.1, h2.2.1, h2.2.2⟩

end Extemp
